import Mathlib

/-!
Verification development for the pdf-rag-citations retrieval pipeline.

The Python sources are shallowly embedded: text is `List Char` (a Python
string is a sequence of code points), floating point scores are `ℚ`,
fallible operations return `Except`, and the external vector index and
language model are parameters of the embedded functions.
-/

set_option maxHeartbeats 1000000
set_option maxRecDepth 8000

namespace PdfRag

/-- Metadata attached to each chunk in `DocumentLoader.split_document`
(src/document_loader.py, lines 158-164). -/
structure ChunkMeta where
  source : String
  chunk_id : Nat
  page_number : Nat
  total_chunks : Nat
  chunk_size : Nat
deriving DecidableEq, Repr

/-- A LangChain `Document`: page content plus metadata. -/
structure Document where
  page_content : List Char
  metadata : ChunkMeta
deriving DecidableEq, Repr

/-- Constant `config.CHUNK_SIZE` (src/config.py line 48). -/
def CHUNK_SIZE : Nat := 1000

/-- Constant `config.CHUNK_OVERLAP` (src/config.py line 51). -/
def CHUNK_OVERLAP : Nat := 200

/-- Constant `config.TOP_K_RETRIEVAL` (src/config.py line 55). -/
def TOP_K_RETRIEVAL : Nat := 4

/-- Constant `config.SIMILARITY_THRESHOLD` (src/config.py line 58). -/
def SIMILARITY_THRESHOLD : ℚ := 0.7

/-- Distance-to-similarity conversion used at src/rag_pipeline.py line 243:
`similarity = 1 / (1 + score)`. -/
def similarity (d : ℚ) : ℚ := 1 / (1 + d)

/-- Core of `RAGPipeline._retrieve_relevant_documents`
(src/rag_pipeline.py lines 239-254), applied to the list of
`(document, distance)` pairs returned by the index: keep the documents
whose similarity reaches the threshold; if none does but the candidate
list is non-empty, fall back to the first candidate. -/
def retrieveFromResults (threshold : ℚ) (results : List (Document × ℚ)) :
    List Document :=
  let filtered := (results.filter fun p => threshold ≤ similarity p.2).map Prod.fst
  if filtered.isEmpty then
    match results with
    | [] => []
    | r :: _ => [r.1]
  else filtered

/-- Function `RAGPipeline._retrieve_relevant_documents` (src/rag_pipeline.py
lines 222-258).  The index query outcome is a parameter: `.error e` models
`similarity_search_with_score` raising, which the function catches,
returning `[]` (lines 256-258). -/
def retrieveRelevantDocuments (threshold : ℚ)
    (queryResult : Except String (List (Document × ℚ))) : List Document :=
  match queryResult with
  | .error _ => []
  | .ok results => retrieveFromResults threshold results

/-- Function `RAGPipeline._calculate_confidence` (src/rag_pipeline.py lines 314-334).
`k` stands for `config.TOP_K_RETRIEVAL`; `len(set(...))` is the length of
the deduplicated list of sources. -/
def calculate_confidence (k : Nat) (docs : List Document) : ℚ :=
  if docs.isEmpty then 0
  else
    let base := min ((docs.length : ℚ) / (k : ℚ)) 1
    let uniq := ((docs.map fun d => d.metadata.source).dedup).length
    let bonus := min ((uniq : ℚ) / 2) (0.2 : ℚ)
    min (base + bonus) 1

/-- Source record built by `RAGPipeline._prepare_sources`
(src/rag_pipeline.py lines 299-310). -/
structure SourceInfo where
  filename : String
  page_number : Nat
  chunk_id : Nat
  content_preview : List Char
  chunk_size : Nat
deriving DecidableEq, Repr

/-- Function `RAGPipeline._prepare_sources` (src/rag_pipeline.py lines 287-312). -/
def prepare_sources (docs : List Document) : List SourceInfo :=
  docs.map fun d =>
    { filename := d.metadata.source
      page_number := d.metadata.page_number
      chunk_id := d.metadata.chunk_id
      content_preview :=
        if 200 < d.page_content.length then d.page_content.take 200 ++ "...".toList
        else d.page_content
      chunk_size := d.metadata.chunk_size }

/-- The fixed answer returned when no relevant document is found
(src/rag_pipeline.py line 187). -/
def noInfoAnswer : String :=
  "Désolé, je n\x27ai pas trouvé d\x27informations pertinentes dans les documents pour répondre à votre question."

/-- Structured response of `RAGPipeline.ask_question`.  `llm_calls` counts
invocations of the completion capability; `answer_length` is present only
on the non-short-circuit path, mirroring the metadata dictionaries at
src/rag_pipeline.py lines 186-194 and 207-216. -/
structure RagResponse where
  answer : String
  sources : List SourceInfo
  question : String
  documents_found : Nat
  confidence : ℚ
  answer_length : Option Nat
  llm_calls : Nat
deriving DecidableEq, Repr

/-- Function `RAGPipeline.ask_question` (src/rag_pipeline.py lines 162-220).
`gen` is the completion capability (`_generate_answer`), `queryResult`
the outcome of the index query.  Raising on an uninitialized pipeline is
modelled by `.error`. -/
def ask_question (isInitd : Bool) (includeSources : Bool)
    (gen : String → List Document → String) (question : String)
    (queryResult : Except String (List (Document × ℚ))) :
    Except String RagResponse :=
  if isInitd = false then
    .error "Pipeline RAG non initialisé. Appelez initialize() d\x27abord."
  else
    let relevant := retrieveRelevantDocuments SIMILARITY_THRESHOLD queryResult
    if relevant.isEmpty then
      .ok { answer := noInfoAnswer, sources := [], question := question
            documents_found := 0, confidence := 0
            answer_length := none, llm_calls := 0 }
    else
      let answer := gen question relevant
      .ok { answer := answer
            sources := if includeSources then prepare_sources relevant else []
            question := question
            documents_found := relevant.length
            confidence := calculate_confidence TOP_K_RETRIEVAL relevant
            answer_length := some answer.length
            llm_calls := 1 }

/-- Characters removed by the first regex of `DocumentLoader._clean_text`
(src/document_loader.py line 111): the control ranges
x00-x08, x0b, x0c, x0e-x1f, x7f-x9f. -/
def removedCtrl (c : Char) : Bool :=
  c.val ≤ 0x08 || c.val == 0x0b || c.val == 0x0c ||
    (0x0e ≤ c.val && c.val ≤ 0x1f) || (0x7f ≤ c.val && c.val ≤ 0x9f)

/-- Replace every maximal whitespace run by a single space, the effect of
the substitution at src/document_loader.py line 114.  The flag records
whether the previous character was whitespace. -/
def collapseWsAux : Bool → List Char → List Char
  | _, [] => []
  | prevWs, c :: rest =>
    if c.isWhitespace then
      if prevWs then collapseWsAux true rest
      else ' ' :: collapseWsAux true rest
    else c :: collapseWsAux false rest

/-- Whitespace-run collapsing starting outside a run. -/
def collapseWs (l : List Char) : List Char := collapseWsAux false l

/-- Python `str.strip()`: drop leading and trailing whitespace. -/
def pyStrip (l : List Char) : List Char :=
  (l.dropWhile Char.isWhitespace).rdropWhile Char.isWhitespace

/-- Function `DocumentLoader._clean_text` (src/document_loader.py lines 100-125):
remove control characters, collapse whitespace runs to single spaces,
split on newlines, strip each line, keep the lines longer than 10
characters, and rejoin with newlines. -/
def clean_text (t : List Char) : List Char :=
  let t1 := t.filter fun c => !(removedCtrl c)
  let t2 := collapseWs t1
  let lines := t2.splitOnP fun c => c == '\n'
  let kept := (lines.map pyStrip).filter fun l => decide (10 < l.length)
  List.intercalate ['\n'] kept

/-- Python `str.split()` with no argument: split on whitespace runs and
drop the empty pieces. -/
def pyWords (l : List Char) : List (List Char) :=
  (l.splitOnP fun c => c.isWhitespace).filter fun w => !w.isEmpty

/-- Token set used by `DocumentLoader._find_page_for_chunk`
(src/document_loader.py lines 193 and 199): the whitespace-separated
words of the lowercased first 100 characters. -/
def tokens100 (l : List Char) : Finset (List Char) :=
  (pyWords ((l.take 100).map Char.toLower)).toFinset

/-- The word-set overlap computed at src/document_loader.py line 202. -/
def pageOverlap (chunk : List Char) (page : List Char) : Nat :=
  (tokens100 chunk ∩ tokens100 page).card

/-- Function `DocumentLoader._find_page_for_chunk` (src/document_loader.py lines
181-208).  The page mapping is an association list in insertion order
(Python dictionaries iterate in insertion order); the fold carries the
`(best_match, max_overlap)` pair, initially `(1, 0)`, updated only on a
strictly larger overlap. -/
def find_page_for_chunk (chunk : List Char) (pageMapping : List (Nat × List Char)) : Nat :=
  (pageMapping.foldl
    (fun best p =>
      if pageOverlap chunk p.2 > best.2 then (p.1, pageOverlap chunk p.2) else best)
    (1, 0)).1

/-- Largest word-set overlap over the pages of a mapping; the value held
by `max_overlap` after the loop of `_find_page_for_chunk`. -/
def maxOverlap (chunk : List Char) (pageMapping : List (Nat × List Char)) : Nat :=
  pageMapping.foldr (fun p acc => max (pageOverlap chunk p.2) acc) 0

/-- Function `DocumentLoader.split_document` (src/document_loader.py lines 127-175),
parametric in the list of text chunks produced by the text splitter:
each chunk is wrapped in a `Document` whose metadata records the source
file, the enumeration index, the attributed page, the total number of
chunks, and the chunk length. -/
def split_document (filename : String) (pageMapping : List (Nat × List Char))
    (textChunks : List (List Char)) : List Document :=
  textChunks.enum.map fun ic =>
    { page_content := ic.2
      metadata :=
        { source := filename
          chunk_id := ic.1
          page_number := find_page_for_chunk ic.2 pageMapping
          total_chunks := textChunks.length
          chunk_size := ic.2.length } }

/-- Stride between consecutive chunk start offsets:
`chunk_size - chunk_overlap`. -/
def stride : Nat := CHUNK_SIZE - CHUNK_OVERLAP

/-- The chunk starting at offset `j * stride`. -/
def chunkAt (text : List Char) (j : Nat) : List Char :=
  (text.drop (j * stride)).take CHUNK_SIZE

/-- Number of chunks produced for a text of the given length: zero for
an empty text, one when the whole text fits in a single chunk, and
otherwise one plus the least number of further stride steps needed for a
chunk to reach the end of the text (ceiling division). -/
def numChunks (len : Nat) : Nat :=
  if len = 0 then 0
  else if len ≤ CHUNK_SIZE then 1
  else 1 + (len - CHUNK_SIZE + (stride - 1)) / stride

/-- Modelled from the spec: the text splitter
(`RecursiveCharacterTextSplitter`, configured at
src/document_loader.py lines 38-43) is LangChain library code absent
from this repository.  Per the spec, pieces are merged greedily into
chunks of length at most `chunk_size` and each new chunk begins with the
last `chunk_overlap` characters of the previous chunk, so consecutive
chunks start `chunk_size - chunk_overlap` characters apart, and no
further chunk is emitted once a chunk reaches the end of the text (a
text fitting in one chunk yields exactly one chunk). -/
def splitText (text : List Char) : List (List Char) :=
  (List.range (numChunks text.length)).map (chunkAt text)

/-- The last `n` elements of a list. -/
def lastN (n : Nat) (l : List α) : List α := l.drop (l.length - n)

/-- Outcome of one `refresh_vectorstore` run: whether the deletion
succeeded, whether `create_vectorstore` was invoked, and whether a
Python exception escaped `refresh_vectorstore`. -/
structure RefreshTrace where
  deleteSucceeded : Bool
  createCalled : Bool
  raisedError : Bool
deriving DecidableEq, Repr

/-- The retry loop of `VectorStoreManager.delete_vectorstore`
(src/vectorstore.py lines 295-305): try attempts `start`,
`start+1`, ... while `fuel` remains; the first success returns `true`,
exhaustion returns `false`.  `attemptOk i` tells whether the i-th
`shutil.rmtree` call succeeds. -/
def deleteAttempts (attemptOk : Nat → Bool) : Nat → Nat → Bool
  | _, 0 => false
  | start, fuel + 1 => if attemptOk start then true else deleteAttempts attemptOk (start + 1) fuel

/-- Function `VectorStoreManager.delete_vectorstore` (src/vectorstore.py lines
279-309): `true` immediately when no store exists, otherwise up to 3
deletion attempts; returns `false` (and raises nothing) when all fail. -/
def delete_vectorstore (storeExists : Bool) (attemptOk : Nat → Bool) : Bool :=
  if storeExists then deleteAttempts attemptOk 0 3 else true

/-- Function `VectorStoreManager.refresh_vectorstore` (src/vectorstore.py lines
311-322): call `delete_vectorstore`, ignore its boolean result, then
call `create_vectorstore` unconditionally. -/
def refresh_vectorstore (storeExists : Bool) (attemptOk : Nat → Bool) : RefreshTrace :=
  let delOk := delete_vectorstore storeExists attemptOk
  { deleteSucceeded := delOk, createCalled := true, raisedError := false }

/-- Sample document used in concrete instantiations. -/
def docA : Document := ⟨['a'], ⟨"a.pdf", 0, 1, 2, 1⟩⟩

/-- Second sample document used in concrete instantiations. -/
def docB : Document := ⟨['b'], ⟨"b.pdf", 1, 1, 2, 1⟩⟩

lemma retrieve_all_below (threshold : ℚ) (r : Document × ℚ) (rs : List (Document × ℚ))
    (hall : ∀ p ∈ r :: rs, similarity p.2 < threshold) :
    retrieveFromResults threshold (r :: rs) = [r.1] := by
  have hfil : (r :: rs).filter (fun p => decide (threshold ≤ similarity p.2)) = [] := by
    refine List.filter_eq_nil_iff.mpr fun p hp => ?_
    simpa using not_le.mpr (hall p hp)
  simp [retrieveFromResults, hfil]

/-- C1 (amended): on a non-empty candidate list the retrieval result is
never empty; when no candidate reaches the threshold the result is exactly
the first candidate; with threshold 1 the result is a single chunk
provided every candidate has positive distance (a distance-0 candidate has
similarity exactly 1 and passes the threshold instead). -/
theorem retrieve_fallback_spec (threshold : ℚ) (results : List (Document × ℚ))
    (hne : results ≠ []) :
    retrieveFromResults threshold results ≠ [] ∧
    ((∀ p ∈ results, similarity p.2 < threshold) →
      retrieveFromResults threshold results = [(results.head hne).1]) ∧
    (threshold = 1 → (∀ p ∈ results, 0 < p.2) →
      (retrieveFromResults threshold results).length = 1) := by
  obtain ⟨r, rs, rfl⟩ := List.exists_cons_of_ne_nil hne
  have hsub : ∀ p ∈ r :: rs, 0 < p.2 → similarity p.2 < 1 := by
    intro p _ hp
    have h1 : (1 : ℚ) < 1 + p.2 := by linarith
    have h0 : (0 : ℚ) < 1 + p.2 := by linarith
    simpa [similarity] using (div_lt_one h0).mpr h1
  refine ⟨?_, ?_, ?_⟩
  · by_cases hfil : (r :: rs).filter (fun p => decide (threshold ≤ similarity p.2)) = []
    · simp [retrieveFromResults, hfil]
    · simp [retrieveFromResults, List.isEmpty_iff, hfil]
  · intro hall
    simpa using retrieve_all_below threshold r rs hall
  · rintro rfl hpos
    have hall : ∀ p ∈ r :: rs, similarity p.2 < 1 := fun p hp => hsub p hp (hpos p hp)
    rw [retrieve_all_below 1 r rs hall]
    rfl

/-- C1 witness: a single candidate at distance 1 has similarity 1/2 below
the configured threshold 0.7, and the fallback returns exactly it. -/
theorem retrieve_fallback_spec_witness :
    (([((docA : Document), (1 : ℚ))] : List (Document × ℚ)) ≠ [] ∧
      (∀ p ∈ ([((docA : Document), (1 : ℚ))] : List (Document × ℚ)),
        similarity p.2 < SIMILARITY_THRESHOLD)) ∧
    retrieveFromResults SIMILARITY_THRESHOLD [(docA, 1)] = [docA] :=
  ⟨⟨by simp, by norm_num [similarity, SIMILARITY_THRESHOLD]⟩,
    (retrieve_fallback_spec SIMILARITY_THRESHOLD [(docA, 1)] (by simp)).2.1
      (by norm_num [similarity, SIMILARITY_THRESHOLD])⟩

/-- C1 counterexample: with threshold 1.0 and two candidates at distance 0
(similarity exactly 1.0), both pass the filter and the result has length
2, not 1. -/
theorem retrieve_threshold_one_counterexample :
    (retrieveFromResults 1 [(docA, 0), (docB, 0)]).length = 2 ∧
    ¬((retrieveFromResults 1 [(docA, 0), (docB, 0)]).length = 1) := by
  have h : retrieveFromResults 1 [(docA, 0), (docB, 0)] = [docA, docB] := by
    norm_num [retrieveFromResults, similarity]
  rw [h]
  simp

/-- C3: for a non-empty retrieval and positive configured k, the
confidence equals the capped base score plus the capped diversity bonus,
where the number of distinct sources is the cardinality of the set of
source identifiers. -/
theorem calculate_confidence_formula (k : Nat) (docs : List Document)
    (hne : docs ≠ []) (hk : 0 < k) :
    calculate_confidence k docs =
      min (min ((docs.length : ℚ) / (k : ℚ)) 1 +
        min (((docs.map fun d => d.metadata.source).toFinset.card : ℚ) / 2) (0.2 : ℚ)) 1 := by
  have h1 : ¬(docs.isEmpty = true) := by simp [hne]
  rw [List.card_toFinset]
  simp [calculate_confidence, h1]

/-- C3 witness: two chunks from two distinct files at k = 4 give
min(2/4, 1) + min(2/2, 0.2) = 0.7. -/
theorem calculate_confidence_formula_witness :
    (([docA, docB] : List Document) ≠ [] ∧ 0 < TOP_K_RETRIEVAL) ∧
    calculate_confidence TOP_K_RETRIEVAL [docA, docB] =
      min (min ((([docA, docB] : List Document).length : ℚ) / (TOP_K_RETRIEVAL : ℚ)) 1 +
        min (((([docA, docB] : List Document).map fun d => d.metadata.source).toFinset.card : ℚ) / 2)
          (0.2 : ℚ)) 1 :=
  ⟨⟨by simp, by decide⟩,
    calculate_confidence_formula TOP_K_RETRIEVAL [docA, docB] (by simp) (by decide)⟩

/-- C4: for positive configured k the confidence is always in [0, 1] and
is 0 exactly on an empty retrieval. -/
theorem calculate_confidence_bounds (k : Nat) (docs : List Document) (hk : 0 < k) :
    0 ≤ calculate_confidence k docs ∧ calculate_confidence k docs ≤ 1 ∧
      (calculate_confidence k docs = 0 ↔ docs = []) := by
  by_cases hd : docs = []
  · subst hd
    simp [calculate_confidence]
  · have h1 : ¬(docs.isEmpty = true) := by simp [hd]
    have hkq : (0 : ℚ) < (k : ℚ) := by exact_mod_cast hk
    have hnq : (0 : ℚ) < (docs.length : ℚ) := by
      exact_mod_cast List.length_pos.mpr hd
    have hbase : (0 : ℚ) < min ((docs.length : ℚ) / (k : ℚ)) 1 :=
      lt_min (div_pos hnq hkq) one_pos
    have hbonus : (0 : ℚ) ≤
        min ((((docs.map fun d => d.metadata.source).dedup).length : ℚ) / 2) (0.2 : ℚ) := by
      refine le_min (div_nonneg ?_ ?_) (by norm_num)
      · positivity
      · norm_num
    have hpos : 0 < calculate_confidence k docs := by
      simp only [calculate_confidence, h1, if_false]
      exact lt_min (by linarith) one_pos
    refine ⟨le_of_lt hpos, ?_, ?_⟩
    · simp only [calculate_confidence, h1, if_false]
      exact min_le_right _ _
    · constructor
      · intro h0
        exact absurd h0 (ne_of_gt hpos)
      · intro h
        exact absurd h hd

/-- C4 witness: one chunk at k = 4 has confidence 9/20, inside [0, 1] and
nonzero on the non-empty list. -/
theorem calculate_confidence_bounds_witness :
    0 < TOP_K_RETRIEVAL ∧
    (0 ≤ calculate_confidence TOP_K_RETRIEVAL [docA] ∧
      calculate_confidence TOP_K_RETRIEVAL [docA] ≤ 1 ∧
      (calculate_confidence TOP_K_RETRIEVAL [docA] = 0 ↔ ([docA] : List Document) = [])) :=
  ⟨by decide, calculate_confidence_bounds TOP_K_RETRIEVAL [docA] (by decide)⟩

/-- C5: on an initialized pipeline, when retrieval yields no document,
`ask_question` short-circuits to the fixed no-information answer with
empty sources, zero documents found, confidence 0, and zero calls to the
completion capability, for every generator. -/
theorem ask_question_no_docs (inc : Bool) (gen : String → List Document → String)
    (question : String) (queryResult : Except String (List (Document × ℚ)))
    (h : retrieveRelevantDocuments SIMILARITY_THRESHOLD queryResult = []) :
    ask_question true inc gen question queryResult =
      .ok { answer := noInfoAnswer, sources := [], question := question
            documents_found := 0, confidence := 0
            answer_length := none, llm_calls := 0 } := by
  simp [ask_question, h]

/-- C5 witness: an index query returning no candidate produces the
short-circuit response, with the generator never consulted. -/
theorem ask_question_no_docs_witness :
    retrieveRelevantDocuments SIMILARITY_THRESHOLD (.ok []) = [] ∧
    ask_question true true (fun _ _ => "unused") "q" (.ok []) =
      .ok { answer := noInfoAnswer, sources := [], question := "q"
            documents_found := 0, confidence := 0
            answer_length := none, llm_calls := 0 } :=
  ⟨rfl, ask_question_no_docs true (fun _ _ => "unused") "q" (.ok []) rfl⟩

/-- C6: when the index query raises, `_retrieve_relevant_documents`
returns the empty list instead of propagating the exception, for every
threshold and every error. -/
theorem retrieve_error_returns_empty (threshold : ℚ) (e : String) :
    retrieveRelevantDocuments threshold (.error e) = [] := rfl

/-- C2 (amended): `refresh_vectorstore` always invokes
`create_vectorstore` and never raises, whatever the deletion outcome;
deletion on an existing store succeeds exactly when one of the first 3
attempts succeeds, and `refresh_vectorstore` records but ignores that
outcome. -/
theorem refresh_vectorstore_spec (storeExists : Bool) (attemptOk : Nat → Bool) :
    (refresh_vectorstore storeExists attemptOk).createCalled = true ∧
    (refresh_vectorstore storeExists attemptOk).raisedError = false ∧
    delete_vectorstore true attemptOk = (attemptOk 0 || attemptOk 1 || attemptOk 2) ∧
    (refresh_vectorstore storeExists attemptOk).deleteSucceeded =
      delete_vectorstore storeExists attemptOk := by
  refine ⟨rfl, rfl, ?_, rfl⟩
  have h : delete_vectorstore true attemptOk =
      (if attemptOk 0 then true else if attemptOk 1 then true
        else if attemptOk 2 then true else false) := rfl
  rw [h]
  cases h0 : attemptOk 0 <;> cases h1 : attemptOk 1 <;> cases h2 : attemptOk 2 <;> simp [h0, h1, h2]

/-- C2 counterexample: when every deletion attempt fails,
`delete_vectorstore` returns `false`, yet `refresh_vectorstore` still
calls `create_vectorstore` and surfaces no error, contradicting the
claimed IndexError. -/
theorem refresh_ignores_delete_failure_counterexample :
    delete_vectorstore true (fun _ => false) = false ∧
    (refresh_vectorstore true (fun _ => false)).createCalled = true ∧
    (refresh_vectorstore true (fun _ => false)).raisedError = false :=
  ⟨rfl, rfl, rfl⟩

/-- C9: the chunk identifiers produced by `split_document` are exactly
0, 1, ..., n-1 in order, and every chunk records its own text length as
`chunk_size`, for every file name, page mapping and chunk list. -/
theorem split_document_ids_and_sizes (filename : String)
    (pageMapping : List (Nat × List Char)) (textChunks : List (List Char)) :
    (split_document filename pageMapping textChunks).map (fun d => d.metadata.chunk_id) =
      List.range textChunks.length ∧
    ∀ d ∈ split_document filename pageMapping textChunks,
      d.metadata.chunk_size = d.page_content.length := by
  constructor
  · rw [split_document, List.map_map]
    have h : ((fun d => d.metadata.chunk_id) ∘
        (fun ic : Nat × List Char =>
          ({ page_content := ic.2
             metadata :=
              { source := filename
                chunk_id := ic.1
                page_number := find_page_for_chunk ic.2 pageMapping
                total_chunks := textChunks.length
                chunk_size := ic.2.length } } : Document))) = Prod.fst := rfl
    rw [h, List.enum_map_fst]
  · intro d hd
    rw [split_document, List.mem_map] at hd
    obtain ⟨ic, _, rfl⟩ := hd
    rfl

lemma mem_collapseWsAux (b : Bool) (l : List Char) (c : Char) (hc : c ∈ collapseWsAux b l) :
    c = ' ' ∨ (c ∈ l ∧ c.isWhitespace = false) := by
  induction l generalizing b with
  | nil => simp [collapseWsAux] at hc
  | cons d rest ih =>
    by_cases hws : d.isWhitespace
    · cases b with
      | true =>
        simp only [collapseWsAux, hws, if_true] at hc
        rcases ih true hc with h | ⟨h1, h2⟩
        · exact Or.inl h
        · exact Or.inr ⟨List.mem_cons_of_mem d h1, h2⟩
      | false =>
        simp only [collapseWsAux, hws, if_true, Bool.false_eq_true, if_false,
          List.mem_cons] at hc
        rcases hc with h | hc
        · exact Or.inl h
        · rcases ih true hc with h | ⟨h1, h2⟩
          · exact Or.inl h
          · exact Or.inr ⟨List.mem_cons_of_mem d h1, h2⟩
    · simp only [collapseWsAux, hws, Bool.false_eq_true, if_false, List.mem_cons] at hc
      rcases hc with h | hc
      · refine Or.inr ⟨?_, ?_⟩
        · rw [h]; exact List.mem_cons_self d rest
        · rw [h]; simpa using hws
      · rcases ih false hc with h | ⟨h1, h2⟩
        · exact Or.inl h
        · exact Or.inr ⟨List.mem_cons_of_mem d h1, h2⟩

lemma newline_not_mem_collapseWs (l : List Char) : '\n' ∉ collapseWs l := by
  intro h
  rcases mem_collapseWsAux false l '\n' h with h1 | ⟨_, h2⟩
  · exact absurd h1 (by decide)
  · exact absurd h2 (by decide)

lemma collapsed_single_line (l : List Char) :
    (collapseWs l).splitOnP (fun c => c == '\n') = [collapseWs l] :=
  List.splitOnP_eq_single _ _ fun x hx hbeq =>
    newline_not_mem_collapseWs l (eq_of_beq hbeq ▸ hx)

lemma clean_text_eq (t : List Char) :
    clean_text t =
      if (pyStrip (collapseWs (t.filter fun c => !(removedCtrl c)))).length ≤ 10 then []
      else pyStrip (collapseWs (t.filter fun c => !(removedCtrl c))) := by
  simp only [clean_text]
  rw [collapsed_single_line]
  by_cases hlen : 10 < (pyStrip (collapseWs (t.filter fun c => !(removedCtrl c)))).length
  · rw [if_neg (by omega)]
    simp [List.filter, hlen, List.intercalate]
  · rw [if_pos (by omega)]
    simp [List.filter, hlen, List.intercalate]

/-- C10 (amended): the collapsed text contains no newline, so the
line-dropping stage of `_clean_text` sees a single line equal to the
whole collapsed text, and the output is the empty list exactly when the
stripped collapsed text has at most 10 characters, and otherwise the
whole collapsed text with its leading and trailing whitespace stripped;
in particular the output never contains a newline, so neither splitter
separator built from newlines can match it. -/
theorem clean_text_spec (t : List Char) :
    '\n' ∉ clean_text t ∧
    (collapseWs (t.filter fun c => !(removedCtrl c))).splitOnP (fun c => c == '\n') =
      [collapseWs (t.filter fun c => !(removedCtrl c))] ∧
    clean_text t =
      (if (pyStrip (collapseWs (t.filter fun c => !(removedCtrl c)))).length ≤ 10 then []
       else pyStrip (collapseWs (t.filter fun c => !(removedCtrl c)))) := by
  refine ⟨?_, collapsed_single_line _, clean_text_eq t⟩
  rw [clean_text_eq t]
  split
  · simp
  · intro hmem
    have hsub : pyStrip (collapseWs (t.filter fun c => !(removedCtrl c))) ⊆
        collapseWs (t.filter fun c => !(removedCtrl c)) := by
      refine List.Sublist.subset ?_
      refine List.Sublist.trans (List.IsPrefix.sublist ( List.rdropWhile_prefix _ _)) ?_
      exact List.IsSuffix.sublist (List.dropWhile_suffix _)
    exact newline_not_mem_collapseWs _ (hsub hmem)

/-- C10 counterexample: for a leading space followed by eleven letters,
the cleaned output is the stripped text, which differs from the collapsed
text (which keeps the leading space) and is not empty. -/
theorem clean_text_unchanged_counterexample :
    clean_text (' ' :: List.replicate 11 'a') ≠
      collapseWs ((' ' :: List.replicate 11 'a').filter fun c => !(removedCtrl c)) ∧
    clean_text (' ' :: List.replicate 11 'a') ≠ [] := by
  constructor <;> decide

/-- C7 (spec model of the splitter): whenever `split_document` produces
chunks `i` and `i+1` for the same document, the last `chunk_overlap`
characters of chunk `i` are an initial segment of chunk `i+1`. -/
theorem splitText_overlap (text : List Char) (i : Nat)
    (h : i + 1 < (splitText text).length) :
    (splitText text)[i]? = some (chunkAt text i) ∧
    (splitText text)[i+1]? = some (chunkAt text (i+1)) ∧
    lastN CHUNK_OVERLAP (chunkAt text i) <+: chunkAt text (i+1) := by
  have hs : stride = 800 := by norm_num [stride, CHUNK_SIZE, CHUNK_OVERLAP]
  have hc : CHUNK_SIZE = 1000 := rfl
  have hlen : (splitText text).length = numChunks text.length := by
    simp [splitText]
  rw [hlen] at h
  have hfull : i * 800 + 1000 < text.length := by
    by_cases h0 : text.length = 0
    · rw [numChunks, if_pos h0] at h
      omega
    · by_cases hle : text.length ≤ CHUNK_SIZE
      · rw [numChunks, if_neg h0, if_pos hle] at h
        omega
      · rw [numChunks, if_neg h0, if_neg hle, hc, hs] at h
        rw [hc] at hle
        have h2 : i + 1 ≤ (text.length - 1000 + (800 - 1)) / 800 := by omega
        rw [Nat.le_div_iff_mul_le (by norm_num)] at h2
        omega
  have hchunk1 : chunkAt text (i+1) = (text.drop ((i+1) * 800)).take 1000 := by
    rw [chunkAt, hs, hc]
  have key : lastN CHUNK_OVERLAP (chunkAt text i) = (text.drop ((i+1) * 800)).take 200 := by
    rw [lastN, chunkAt, hs, hc]
    rw [List.length_take, List.length_drop]
    have hmin : min 1000 (text.length - i * 800) = 1000 := by omega
    rw [hmin]
    have ho : CHUNK_OVERLAP = 200 := rfl
    rw [ho]
    rw [show (1000 - 200 : Nat) = 800 from rfl]
    rw [List.drop_take, List.drop_drop]
    rw [show (i * 800 + 800 : Nat) = (i+1) * 800 from by ring]
  refine ⟨?_, ?_, ?_⟩
  · simp only [splitText]
    rw [List.getElem?_map, List.getElem?_range (by omega)]
    rfl
  · simp only [splitText]
    rw [List.getElem?_map, List.getElem?_range h]
    rfl
  · rw [key, hchunk1]
    have ht : ((text.drop ((i+1) * 800)).take 1000).take 200 =
        (text.drop ((i+1) * 800)).take 200 := by
      rw [List.take_take]
      norm_num
    rw [← ht]
    exact List.take_prefix _ _

/-- C7 witness: a text of 1800 identical characters yields exactly two
chunks, and the last 200 characters of chunk 0 start chunk 1. -/
theorem splitText_overlap_witness :
    0 + 1 < (splitText (List.replicate 1800 'a')).length ∧
    ((splitText (List.replicate 1800 'a'))[0]? = some (chunkAt (List.replicate 1800 'a') 0) ∧
      (splitText (List.replicate 1800 'a'))[0+1]? = some (chunkAt (List.replicate 1800 'a') (0+1)) ∧
      lastN CHUNK_OVERLAP (chunkAt (List.replicate 1800 'a') 0) <+:
        chunkAt (List.replicate 1800 'a') (0+1)) :=
  ⟨by norm_num [splitText, numChunks, stride, CHUNK_SIZE, CHUNK_OVERLAP],
    splitText_overlap (List.replicate 1800 'a') 0
      (by norm_num [splitText, numChunks, stride, CHUNK_SIZE, CHUNK_OVERLAP])⟩

lemma maxOverlap_cons (chunk : List Char) (r : Nat × List Char) (rest : List (Nat × List Char)) :
    maxOverlap chunk (r :: rest) = max (pageOverlap chunk r.2) (maxOverlap chunk rest) := rfl

lemma le_maxOverlap (chunk : List Char) (pm : List (Nat × List Char)) :
    ∀ p ∈ pm, pageOverlap chunk p.2 ≤ maxOverlap chunk pm := by
  induction pm with
  | nil => simp
  | cons q rest ih =>
    intro p hp
    rcases List.mem_cons.mp hp with h | h
    · rw [h, maxOverlap_cons]
      exact le_max_left _ _
    · rw [maxOverlap_cons]
      exact le_trans (ih p h) (le_max_right _ _)

lemma maxOverlap_attained (chunk : List Char) (pm : List (Nat × List Char))
    (h : maxOverlap chunk pm ≠ 0) :
    ∃ p ∈ pm, pageOverlap chunk p.2 = maxOverlap chunk pm := by
  induction pm with
  | nil => simp [maxOverlap] at h
  | cons q rest ih =>
    rw [maxOverlap_cons] at h ⊢
    by_cases hc : maxOverlap chunk rest ≤ pageOverlap chunk q.2
    · exact ⟨q, List.mem_cons_self q rest, (max_eq_left hc).symm⟩
    · push_neg at hc
      have hne : maxOverlap chunk rest ≠ 0 := by omega
      obtain ⟨p, hp, hpe⟩ := ih hne
      exact ⟨p, List.mem_cons_of_mem _ hp, by rw [hpe, max_eq_right (le_of_lt hc)]⟩

lemma findPage_foldl_spec (chunk : List Char) (pm : List (Nat × List Char)) :
    ∀ (b mo : Nat),
      (pm.foldl (fun best p =>
          if pageOverlap chunk p.2 > best.2 then (p.1, pageOverlap chunk p.2) else best)
        (b, mo)).2 = max mo (maxOverlap chunk pm) ∧
      (maxOverlap chunk pm ≤ mo →
        pm.foldl (fun best p =>
            if pageOverlap chunk p.2 > best.2 then (p.1, pageOverlap chunk p.2) else best)
          (b, mo) = (b, mo)) ∧
      (mo < maxOverlap chunk pm →
        ∀ q, pm.find? (fun p => pageOverlap chunk p.2 == maxOverlap chunk pm) = some q →
          (pm.foldl (fun best p =>
              if pageOverlap chunk p.2 > best.2 then (p.1, pageOverlap chunk p.2) else best)
            (b, mo)).1 = q.1) := by
  induction pm with
  | nil =>
    intro b mo
    refine ⟨by simp [maxOverlap], fun _ => rfl, fun hlt q hq => ?_⟩
    simp [maxOverlap] at hlt
  | cons r rest ih =>
    intro b mo
    by_cases hcase : pageOverlap chunk r.2 > mo
    · have step : (if pageOverlap chunk r.2 > (b, mo).2 then (r.1, pageOverlap chunk r.2)
          else (b, mo)) = (r.1, pageOverlap chunk r.2) := if_pos hcase
      by_cases hrest : maxOverlap chunk rest ≤ pageOverlap chunk r.2
      · have hmax : maxOverlap chunk (r :: rest) = pageOverlap chunk r.2 := by
          rw [maxOverlap_cons]
          exact max_eq_left hrest
        obtain ⟨ih1, ih2, _⟩ := ih r.1 (pageOverlap chunk r.2)
        refine ⟨?_, ?_, ?_⟩
        · rw [List.foldl_cons, step, ih1, hmax, max_eq_left hrest,
            max_eq_right (le_of_lt hcase)]
        · intro hle
          rw [hmax] at hle
          omega
        · intro _ q hq
          have hpred : ((fun p : Nat × List Char =>
              pageOverlap chunk p.2 == maxOverlap chunk (r :: rest)) r) = true := by
            simp [hmax]
          rw [@List.find?_cons_of_pos _ (fun p : Nat × List Char =>
            pageOverlap chunk p.2 == maxOverlap chunk (r :: rest)) r rest hpred] at hq
          cases hq
          rw [List.foldl_cons, step, ih2 hrest]
      · push_neg at hrest
        have hmax : maxOverlap chunk (r :: rest) = maxOverlap chunk rest := by
          rw [maxOverlap_cons]
          exact max_eq_right (le_of_lt hrest)
        obtain ⟨ih1, _, ih3⟩ := ih r.1 (pageOverlap chunk r.2)
        refine ⟨?_, ?_, ?_⟩
        · rw [List.foldl_cons, step, ih1, hmax, max_eq_right (le_of_lt hrest),
            max_eq_right (by omega : mo ≤ maxOverlap chunk rest)]
        · intro hle
          rw [hmax] at hle
          omega
        · intro _ q hq
          have hpred : ¬((fun p : Nat × List Char =>
              pageOverlap chunk p.2 == maxOverlap chunk (r :: rest)) r) = true := by
            simp [hmax]
            omega
          rw [@List.find?_cons_of_neg _ (fun p : Nat × List Char =>
            pageOverlap chunk p.2 == maxOverlap chunk (r :: rest)) r rest hpred, hmax] at hq
          rw [List.foldl_cons, step]
          exact ih3 hrest q hq
    · have step : (if pageOverlap chunk r.2 > (b, mo).2 then (r.1, pageOverlap chunk r.2)
          else (b, mo)) = (b, mo) := if_neg hcase
      push_neg at hcase
      obtain ⟨ih1, ih2, ih3⟩ := ih b mo
      refine ⟨?_, ?_, ?_⟩
      · rw [List.foldl_cons, step, ih1, maxOverlap_cons, ← max_assoc, max_eq_left hcase]
      · intro hle
        rw [maxOverlap_cons] at hle
        rw [List.foldl_cons, step]
        exact ih2 (le_trans (le_max_right _ _) hle)
      · intro hlt q hq
        rw [maxOverlap_cons] at hlt
        have hrlt : mo < maxOverlap chunk rest := by
          rcases lt_max_iff.mp hlt with h | h
          · omega
          · exact h
        have hmax : maxOverlap chunk (r :: rest) = maxOverlap chunk rest := by
          rw [maxOverlap_cons]
          exact max_eq_right (by omega)
        have hpred : ¬((fun p : Nat × List Char =>
            pageOverlap chunk p.2 == maxOverlap chunk (r :: rest)) r) = true := by
          simp [hmax]
          omega
        rw [@List.find?_cons_of_neg _ (fun p : Nat × List Char =>
          pageOverlap chunk p.2 == maxOverlap chunk (r :: rest)) r rest hpred, hmax] at hq
        rw [List.foldl_cons, step]
        exact ih3 hrlt q hq

/-- C8: with every page number in the mapping at least 1,
`_find_page_for_chunk` always returns a page at least 1; every page
overlap is bounded by the maximal overlap; when all token intersections
are empty the default page 1 is returned; and when some intersection is
non-empty the returned page is the first page encountered whose token
intersection with the chunk attains the strictly largest size. -/
theorem find_page_spec (chunk : List Char) (pm : List (Nat × List Char))
    (hpos : ∀ p ∈ pm, 1 ≤ p.1) :
    1 ≤ find_page_for_chunk chunk pm ∧
    (∀ p ∈ pm, pageOverlap chunk p.2 ≤ maxOverlap chunk pm) ∧
    (maxOverlap chunk pm = 0 → find_page_for_chunk chunk pm = 1) ∧
    (0 < maxOverlap chunk pm →
      ∃ q, pm.find? (fun p => pageOverlap chunk p.2 == maxOverlap chunk pm) = some q ∧
        find_page_for_chunk chunk pm = q.1 ∧
        pageOverlap chunk q.2 = maxOverlap chunk pm) := by
  obtain ⟨h1, h2, h3⟩ := findPage_foldl_spec chunk pm 1 0
  have hzero : maxOverlap chunk pm = 0 → find_page_for_chunk chunk pm = 1 := by
    intro h0
    rw [find_page_for_chunk, h2 (by omega)]
  have hposcase : 0 < maxOverlap chunk pm →
      ∃ q, pm.find? (fun p => pageOverlap chunk p.2 == maxOverlap chunk pm) = some q ∧
        find_page_for_chunk chunk pm = q.1 ∧
        pageOverlap chunk q.2 = maxOverlap chunk pm := by
    intro hgt
    obtain ⟨w, hw, hwe⟩ := maxOverlap_attained chunk pm (by omega)
    have hsome : (pm.find? fun p => pageOverlap chunk p.2 == maxOverlap chunk pm).isSome :=
      List.find?_isSome.mpr ⟨w, hw, by simp [hwe]⟩
    obtain ⟨q, hq⟩ := Option.isSome_iff_exists.mp hsome
    refine ⟨q, hq, ?_, ?_⟩
    · rw [find_page_for_chunk]
      exact h3 hgt q hq
    · simpa using List.find?_some hq
  have hge1 : 1 ≤ find_page_for_chunk chunk pm := by
    by_cases h0 : maxOverlap chunk pm = 0
    · rw [hzero h0]
    · obtain ⟨q, hq, hfe, _⟩ := hposcase (by omega)
      rw [hfe]
      exact hpos q (List.mem_of_find?_eq_some hq)
  exact ⟨hge1, le_maxOverlap chunk pm, hzero, hposcase⟩

/-- C8 witness: a two-page mapping with pages 1 and 2 satisfies the page
positivity hypothesis, and the attributed page is at least 1. -/
theorem find_page_spec_witness :
    (∀ p ∈ [(1, ("alpha x".toList : List Char)), (2, "alpha beta".toList)], 1 ≤ p.1) ∧
    1 ≤ find_page_for_chunk ("alpha beta".toList)
        [(1, "alpha x".toList), (2, "alpha beta".toList)] :=
  ⟨by decide,
    (find_page_spec ("alpha beta".toList)
      [(1, "alpha x".toList), (2, "alpha beta".toList)] (by decide)).1⟩

end PdfRag
